import Mathlib

/-!
Verification of the `arbfloat` floating-point decoder.

The program (src/code/arbfloat/src/main.rs) decodes fixed-width IEEE-754-style
bit patterns into an arbitrary-precision (kind, significand) pair.  The raw
bits live in a `u64` (`IntStorage`); field arithmetic is done with `u8`/`u32`/
`i32`/`u64` machine integers whose overflow checks (Rust debug semantics:
an overflowing shift amount, add, or sub panics) are modelled by `Option`:
`none` models a panic.  `BigInt` is modelled by `Int`.
-/

/-- Two's-complement reinterpretation of the low 32 bits of a natural number,
modelling Rust's wrapping `as i32` cast. -/
def wrap32 (n : Nat) : Int :=
  let m : Nat := n % 2 ^ 32
  if m < 2 ^ 31 then (m : Int) else (m : Int) - 2 ^ 32

/-- Checked `i32` arithmetic result: Rust (debug) panics when a value leaves
the `i32` range, modelled as `none`. -/
def chk32 (v : Int) : Option Int :=
  if -(2 ^ 31) ≤ v ∧ v < 2 ^ 31 then some v else none

/-- `u64` right shift `x >> sh`: a shift amount of 64 or more is an overflow
panic in Rust (debug), modelled as `none`. -/
def shrU64 (x sh : Nat) : Option Nat :=
  if sh < 64 then some (x >>> sh) else none

/-- Count of trailing zero bits, with fuel for structural recursion
(`ctzFuel fuel n` is the trailing-zero count of `n` whenever `n ≤ fuel` and
`n ≠ 0`).  Models `BigInt::trailing_zeros` on the magnitude. -/
def ctzFuel : Nat → Nat → Nat
  | 0, _ => 0
  | fuel + 1, n => if n % 2 = 0 then ctzFuel fuel (n / 2) + 1 else 0

/-- Number of trailing zero bits of a nonzero natural number. -/
def ctz (n : Nat) : Nat := ctzFuel n n

/-- `enum FloatKind` from the source; `Regular`'s payload is the `i32`
exponent (kept in `i32` range by the checked arithmetic in the decoder). -/
inductive FloatKind where
  | Regular (exp : Int)
  | Zero
  | Infinity
  | NaN
deriving DecidableEq

/-- `struct ArbFloat { kind, num }`: the decoded value; `num` is the `BigInt`
significand. -/
structure ArbFloat where
  kind : FloatKind
  num : Int
deriving DecidableEq

/-- `ArbFloat::new`: the normalizing constructor.  For a `Regular` kind it
takes `num.trailing_zeros().unwrap()` (`unwrap` of `None` — i.e. `num == 0` —
panics, modelled by `none`), adds that count to the exponent (checked `i32`
add) and right-shifts the significand by it.  Other kinds pass through. -/
def ArbFloat.new (kind : FloatKind) (num : Int) : Option ArbFloat :=
  match kind with
  | .Regular exp =>
    if num = 0 then none
    else
      let tz := ctz num.natAbs
      let adjustment : Int := wrap32 tz
      match chk32 (exp + adjustment) with
      | some e2 =>
        if adjustment < 0 then none
        else some ⟨.Regular e2, Int.fdiv num ((2 ^ adjustment.toNat : Nat) : Int)⟩
      | none => none
  | k => some ⟨k, num⟩

/-- `struct FormatDesc { frac_bits: u8, exp_bits: u8 }`. -/
structure FormatDesc where
  frac_bits : Nat
  exp_bits : Nat
deriving DecidableEq

namespace FormatDesc

/-- `FormatDesc::BINARY32`. -/
def BINARY32 : FormatDesc := ⟨23, 8⟩

/-- `FormatDesc::BINARY64`. -/
def BINARY64 : FormatDesc := ⟨52, 11⟩

/-- `precision(): i32 = frac_bits as i32 + 1` (total: `u8` fits `i32`). -/
def precision (d : FormatDesc) : Int := (d.frac_bits : Int) + 1

/-- `mask(bits: u32) = IntStorage::MAX >> (IntStorage::BITS - bits)`.
For `bits = 0` the shift amount is 64 (shift overflow panic); for
`bits > 64` the `u32` subtraction underflows (panic).  Both are `none`. -/
def mask (bits : Nat) : Option Nat :=
  if bits = 0 ∨ 64 < bits then none
  else some ((2 ^ 64 - 1) >>> (64 - bits))

/-- `frac_mask()`. -/
def frac_mask (d : FormatDesc) : Option Nat := mask d.frac_bits

/-- `frac_shift() = 0`. -/
def frac_shift (_ : FormatDesc) : Nat := 0

/-- `biased_exp_mask()`. -/
def biased_exp_mask (d : FormatDesc) : Option Nat := mask d.exp_bits

/-- `biased_exp_shift() = frac_shift() + frac_bits`. -/
def biased_exp_shift (d : FormatDesc) : Nat := d.frac_shift + d.frac_bits

/-- `exp_bias(): i32 = (1 << (exp_bits - 1)) - 1`.  `exp_bits - 1` underflows
for `exp_bits = 0`; the `i32` shift overflows for a shift amount ≥ 32; and
the final `- 1` is a checked `i32` subtraction (overflows for
`exp_bits = 32`, where the shift produces `i32::MIN`). -/
def exp_bias (d : FormatDesc) : Option Int :=
  if d.exp_bits = 0 then none
  else if 32 ≤ d.exp_bits - 1 then none
  else chk32 (wrap32 (2 ^ (d.exp_bits - 1)) - 1)

/-- `sign_mask() = 1`. -/
def sign_mask (_ : FormatDesc) : Nat := 1

/-- `sign_shift() = biased_exp_shift() + exp_bits`. -/
def sign_shift (d : FormatDesc) : Nat := d.biased_exp_shift + d.exp_bits

/-- `integer_bit() = 1 << frac_bits` (`u64` shift, overflow panic for
`frac_bits ≥ 64`). -/
def integer_bit (d : FormatDesc) : Option Nat :=
  if d.frac_bits < 64 then some (1 <<< d.frac_bits) else none

end FormatDesc

/-- The `BINARY3` descriptor from `print_binary3` (`frac_bits: 1, exp_bits: 1`). -/
def BINARY3 : FormatDesc := ⟨1, 1⟩

/-- The field-extraction and classification part of `fn parse`, i.e.
everything before the final `ArbFloat::new` call: it yields the classified
kind together with the raw (pre-normalization) signed significand. -/
def parseRaw (d : FormatDesc) (s : Nat) : Option (FloatKind × Int) :=
  match d.frac_mask with
  | none => none
  | some fm =>
  match shrU64 s d.frac_shift with
  | none => none
  | some s0 =>
  match d.biased_exp_mask with
  | none => none
  | some bm =>
  match shrU64 s d.biased_exp_shift with
  | none => none
  | some s1 =>
  match shrU64 s d.sign_shift with
  | none => none
  | some s2 =>
  match d.exp_bias with
  | none => none
  | some bias =>
  match chk32 (bias + d.precision) with
  | none => none
  | some t1 =>
  match chk32 (t1 - 1) with
  | none => none
  | some t2 =>
  match chk32 (wrap32 (s1 &&& bm) - t2) with
  | none => none
  | some exp =>
  if s1 &&& bm = bm then
    if s0 &&& fm = 0 then
      some (.Infinity, if s2 &&& d.sign_mask ≠ 0 then -1 else 1)
    else
      some (.NaN, if s2 &&& d.sign_mask ≠ 0 then -1 else 1)
  else if s1 &&& bm = 0 then
    if s0 &&& fm = 0 then
      some (.Zero, if s2 &&& d.sign_mask ≠ 0 then -1 else 1)
    else
      match chk32 (exp + 1) with
      | none => none
      | some e1 =>
        some (.Regular e1,
          (if s2 &&& d.sign_mask ≠ 0 then -1 else 1) * ((s0 &&& fm : Nat) : Int))
  else
    match d.integer_bit with
    | none => none
    | some ib =>
      some (.Regular exp,
        (if s2 &&& d.sign_mask ≠ 0 then -1 else 1) * (((s0 &&& fm) ||| ib : Nat) : Int))

/-- `fn parse`: extract and classify, then construct through the normalizing
constructor `ArbFloat::new`. -/
def parse (d : FormatDesc) (s : Nat) : Option ArbFloat :=
  (parseRaw d s).bind fun kn => ArbFloat.new kn.1 kn.2

/-- Spec formula (§4.2 step 4): the significand sign factor, `-1` when the
sign bit at position `F+E` is set, else `+1`. -/
def specSignFactor (d : FormatDesc) (s : Nat) : Int :=
  if (s >>> (d.frac_bits + d.exp_bits)) &&& 1 ≠ 0 then -1 else 1

/-- Spec formula (§4.2 step 2): the unbiased exponent candidate
`biased_exponent - (exponent_bias + precision - 1)` with
`exponent_bias = 2^(E-1) - 1` and `precision = F + 1`. -/
def specUnbiasedExp (d : FormatDesc) (s : Nat) : Int :=
  (((s >>> d.frac_bits) &&& (2 ^ d.exp_bits - 1) : Nat) : Int)
    - ((2 ^ (d.exp_bits - 1) - 1) + ((d.frac_bits : Int) + 1) - 1)

/-- Spec formula (§4.2 step 3): the claimed classification result of decoding,
by (biased exponent, fraction), with the pre-normalization significand. -/
def specClassify (d : FormatDesc) (s : Nat) : Option (FloatKind × Int) :=
  let frac := s &&& (2 ^ d.frac_bits - 1)
  let be := (s >>> d.frac_bits) &&& (2 ^ d.exp_bits - 1)
  if be = 2 ^ d.exp_bits - 1 then
    if frac = 0 then some (.Infinity, specSignFactor d s)
    else some (.NaN, specSignFactor d s)
  else if be = 0 then
    if frac = 0 then some (.Zero, specSignFactor d s)
    else some (.Regular (specUnbiasedExp d s + 1), specSignFactor d s * (frac : Int))
  else
    some (.Regular (specUnbiasedExp d s),
      specSignFactor d s * ((frac ||| 2 ^ d.frac_bits : Nat) : Int))

/-- The spec's rational reconstruction of a Regular decoded value:
`significand * 2^exponent` as a rational number (undefined for the other
kinds, whose exponent is not meaningful). -/
def reconstruct (af : ArbFloat) : Option Rat :=
  match af.kind with
  | .Regular e => some ((af.num : Rat) * (2 : Rat) ^ e)
  | _ => none

/-! ### Helper lemmas about the machine-arithmetic model -/

theorem two_pow_sub_one_shiftRight {n k : Nat} (h : k ≤ n) :
    (2 ^ n - 1) >>> k = 2 ^ (n - k) - 1 := by
  rw [Nat.shiftRight_eq_div_pow]
  have h1 : 2 ^ n = 2 ^ k * 2 ^ (n - k) := by
    rw [← pow_add]
    congr 1
    omega
  have h2 : 0 < 2 ^ k := pow_pos (by norm_num) k
  have h3 : 0 < 2 ^ (n - k) := pow_pos (by norm_num) (n - k)
  have h5 : 2 ^ k ≤ 2 ^ k * 2 ^ (n - k) := Nat.le_mul_of_pos_right _ h3
  have hstep : 2 ^ (n - k) - 1 + 1 = 2 ^ (n - k) := Nat.succ_pred_eq_of_pos h3
  have hmul : 2 ^ k * (2 ^ (n - k) - 1) + 2 ^ k = 2 ^ k * 2 ^ (n - k) := by
    calc 2 ^ k * (2 ^ (n - k) - 1) + 2 ^ k
        = 2 ^ k * (2 ^ (n - k) - 1 + 1) := by ring
      _ = 2 ^ k * 2 ^ (n - k) := by rw [hstep]
  have h4 : 2 ^ n - 1 = 2 ^ k * (2 ^ (n - k) - 1) + (2 ^ k - 1) := by omega
  rw [h4, Nat.mul_add_div h2, Nat.div_eq_of_lt (by omega), Nat.add_zero]

theorem mask_eq {b : Nat} (h1 : 1 ≤ b) (h2 : b ≤ 64) :
    FormatDesc.mask b = some (2 ^ b - 1) := by
  have hb : 64 - (64 - b) = b := by omega
  rw [FormatDesc.mask, if_neg (by omega),
    two_pow_sub_one_shiftRight (by omega : 64 - b ≤ 64), hb]

theorem shrU64_eq {x sh : Nat} (h : sh < 64) : shrU64 x sh = some (x >>> sh) := by
  rw [shrU64, if_pos h]

theorem wrap32_eq {n : Nat} (h : n < 2 ^ 31) : wrap32 n = (n : Int) := by
  rw [wrap32]
  simp only [Nat.mod_eq_of_lt (by omega : n < 2 ^ 32)]
  rw [if_pos h]

theorem chk32_eq {v : Int} (h1 : -(2 ^ 31) ≤ v) (h2 : v < 2 ^ 31) :
    chk32 v = some v := by
  rw [chk32, if_pos ⟨h1, h2⟩]

theorem exp_bias_eq {d : FormatDesc} (h1 : 1 ≤ d.exp_bits) (h2 : d.exp_bits ≤ 31) :
    d.exp_bias = some (((2 ^ (d.exp_bits - 1) : Nat) : Int) - 1) := by
  have hp : (2 : Nat) ^ (d.exp_bits - 1) ≤ 2 ^ 30 :=
    Nat.pow_le_pow_right (by norm_num) (by omega)
  rw [FormatDesc.exp_bias, if_neg (by omega), if_neg (by omega),
    wrap32_eq (by omega), chk32_eq]
  · have : (0 : Int) ≤ ((2 ^ (d.exp_bits - 1) : Nat) : Int) := Int.natCast_nonneg _
    omega
  · have : ((2 ^ (d.exp_bits - 1) : Nat) : Int) ≤ ((2 ^ 30 : Nat) : Int) :=
      Int.ofNat_le.mpr hp
    omega

theorem integer_bit_eq {d : FormatDesc} (h : d.frac_bits < 64) :
    d.integer_bit = some (2 ^ d.frac_bits) := by
  rw [FormatDesc.integer_bit, if_pos h, Nat.one_shiftLeft]

theorem exp_bias_eq2 {d : FormatDesc} (h1 : 1 ≤ d.exp_bits) (h2 : d.exp_bits ≤ 31) :
    d.exp_bias = some ((2 : Int) ^ (d.exp_bits - 1) - 1) := by
  rw [exp_bias_eq h1 h2]
  norm_cast

/-- Under a valid descriptor (nonzero field widths, bias fitting `i32`, total
width at most 64) the decoder's extraction/classification phase follows the
spec's classification rule exactly, for every raw pattern. -/
theorem parseRaw_valid (d : FormatDesc) (s : Nat)
    (hF : 1 ≤ d.frac_bits) (hE : 1 ≤ d.exp_bits) (hE31 : d.exp_bits ≤ 31)
    (hW : d.frac_bits + d.exp_bits + 1 ≤ 64) :
    parseRaw d s = specClassify d s := by
  have hfm : d.frac_mask = some (2 ^ d.frac_bits - 1) := mask_eq hF (by omega)
  have hbm : d.biased_exp_mask = some (2 ^ d.exp_bits - 1) := mask_eq hE (by omega)
  have hs0 : shrU64 s d.frac_shift = some s := by
    rw [FormatDesc.frac_shift, shrU64, if_pos (by norm_num), Nat.shiftRight_zero]
  have hs1 : shrU64 s d.biased_exp_shift = some (s >>> d.frac_bits) := by
    rw [FormatDesc.biased_exp_shift, FormatDesc.frac_shift, Nat.zero_add]
    exact shrU64_eq (by omega)
  have hs2 : shrU64 s d.sign_shift = some (s >>> (d.frac_bits + d.exp_bits)) := by
    rw [FormatDesc.sign_shift, FormatDesc.biased_exp_shift, FormatDesc.frac_shift,
      Nat.zero_add]
    exact shrU64_eq (by omega)
  have hbias : d.exp_bias = some ((2 : Int) ^ (d.exp_bits - 1) - 1) := exp_bias_eq2 hE hE31
  have hBpos : (0 : Int) < 2 ^ (d.exp_bits - 1) := pow_pos (by norm_num) _
  have hBle : (2 : Int) ^ (d.exp_bits - 1) ≤ 2 ^ 30 := by
    have h := Nat.pow_le_pow_right (by norm_num : 0 < 2) (show d.exp_bits - 1 ≤ 30 by omega)
    exact_mod_cast h
  have hFle62 : (d.frac_bits : Int) ≤ 62 := by
    exact_mod_cast (show d.frac_bits ≤ 62 by omega)
  have hF0 : (0 : Int) ≤ (d.frac_bits : Int) := Int.natCast_nonneg _
  have hbe_le : (s >>> d.frac_bits) &&& (2 ^ d.exp_bits - 1) ≤ 2 ^ d.exp_bits - 1 :=
    Nat.and_le_right
  have hE2 : (2 : Nat) ^ d.exp_bits ≤ 2 ^ 31 := Nat.pow_le_pow_right (by norm_num) hE31
  have hbe_lt : (s >>> d.frac_bits) &&& (2 ^ d.exp_bits - 1) < 2 ^ 31 := by omega
  have hbeI0 : (0 : Int) ≤ (((s >>> d.frac_bits) &&& (2 ^ d.exp_bits - 1) : Nat) : Int) :=
    Int.natCast_nonneg _
  have hbeIlt : (((s >>> d.frac_bits) &&& (2 ^ d.exp_bits - 1) : Nat) : Int) < 2 ^ 31 := by
    exact_mod_cast hbe_lt
  have hw : wrap32 ((s >>> d.frac_bits) &&& (2 ^ d.exp_bits - 1)) =
      (((s >>> d.frac_bits) &&& (2 ^ d.exp_bits - 1) : Nat) : Int) := wrap32_eq hbe_lt
  have ht1 : chk32 ((2 : Int) ^ (d.exp_bits - 1) - 1 + ((d.frac_bits : Int) + 1)) =
      some ((2 : Int) ^ (d.exp_bits - 1) - 1 + ((d.frac_bits : Int) + 1)) :=
    chk32_eq (by omega) (by omega)
  have ht2 : chk32 ((2 : Int) ^ (d.exp_bits - 1) - 1 + ((d.frac_bits : Int) + 1) - 1) =
      some ((2 : Int) ^ (d.exp_bits - 1) - 1 + ((d.frac_bits : Int) + 1) - 1) :=
    chk32_eq (by omega) (by omega)
  have hexp : chk32 ((((s >>> d.frac_bits) &&& (2 ^ d.exp_bits - 1) : Nat) : Int) -
        ((2 : Int) ^ (d.exp_bits - 1) - 1 + ((d.frac_bits : Int) + 1) - 1)) =
      some ((((s >>> d.frac_bits) &&& (2 ^ d.exp_bits - 1) : Nat) : Int) -
        ((2 : Int) ^ (d.exp_bits - 1) - 1 + ((d.frac_bits : Int) + 1) - 1)) :=
    chk32_eq (by omega) (by omega)
  have ht3 : chk32 ((((s >>> d.frac_bits) &&& (2 ^ d.exp_bits - 1) : Nat) : Int) -
        ((2 : Int) ^ (d.exp_bits - 1) - 1 + ((d.frac_bits : Int) + 1) - 1) + 1) =
      some ((((s >>> d.frac_bits) &&& (2 ^ d.exp_bits - 1) : Nat) : Int) -
        ((2 : Int) ^ (d.exp_bits - 1) - 1 + ((d.frac_bits : Int) + 1) - 1) + 1) :=
    chk32_eq (by omega) (by omega)
  have hib : d.integer_bit = some (2 ^ d.frac_bits) := integer_bit_eq (by omega)
  simp only [parseRaw, hfm, hbm, hs0, hs1, hs2, hbias, FormatDesc.precision, ht1, ht2,
    hw, hexp, ht3, hib, FormatDesc.sign_mask, specClassify, specSignFactor,
    specUnbiasedExp]

/-! ### Trailing-zero-count lemmas -/

theorem ctzFuel_spec : ∀ fuel n, n ≠ 0 → n ≤ fuel →
    2 ^ ctzFuel fuel n ∣ n ∧ (n / 2 ^ ctzFuel fuel n) % 2 = 1 := by
  intro fuel
  induction fuel with
  | zero => intro n h1 h2; omega
  | succ fuel ih =>
    intro n h1 h2
    simp only [ctzFuel]
    by_cases h : n % 2 = 0
    · rw [if_pos h]
      have hn2 : n / 2 ≠ 0 := by omega
      have hle : n / 2 ≤ fuel := by omega
      obtain ⟨hd, ho⟩ := ih (n / 2) hn2 hle
      set u := ctzFuel fuel (n / 2) with hu
      constructor
      · obtain ⟨c, hc⟩ := hd
        refine ⟨c, ?_⟩
        calc n = 2 * (n / 2) := by omega
          _ = 2 * (2 ^ u * c) := by rw [hc]
          _ = 2 ^ (u + 1) * c := by ring
      · have hdd : n / 2 ^ (u + 1) = n / 2 / 2 ^ u := by
          rw [Nat.div_div_eq_div_mul]
          congr 1
          ring
        rw [hdd]
        exact ho
    · rw [if_neg h]
      constructor
      · rw [pow_zero]
        exact one_dvd n
      · rw [pow_zero, Nat.div_one]
        omega

theorem ctz_spec {n : Nat} (h : n ≠ 0) :
    2 ^ ctz n ∣ n ∧ (n / 2 ^ ctz n) % 2 = 1 :=
  ctzFuel_spec n n h le_rfl

theorem ctz_lt {n b : Nat} (h : n ≠ 0) (hb : n < 2 ^ b) : ctz n < b := by
  have hd := (ctz_spec h).1
  have h1 : 2 ^ ctz n ≤ n := Nat.le_of_dvd (Nat.pos_of_ne_zero h) hd
  exact (Nat.pow_lt_pow_iff_right (by norm_num)).mp (h1.trans_lt hb)

theorem fdiv_ctz_odd {n : Int} (h : n ≠ 0) :
    Odd (Int.fdiv n ((2 ^ ctz n.natAbs : Nat) : Int)) := by
  have hm : n.natAbs ≠ 0 := Int.natAbs_ne_zero.mpr h
  set t := ctz n.natAbs with htdef
  obtain ⟨hd, ho⟩ := ctz_spec hm
  have hdInt : ((2 ^ t : Nat) : Int) ∣ n := by
    rw [← Int.natAbs_dvd_natAbs, Int.natAbs_ofNat]
    exact hd
  obtain ⟨q, hq⟩ := hdInt
  have hp0 : ((2 ^ t : Nat) : Int) ≠ 0 := by positivity
  have hqabs : q.natAbs = n.natAbs / 2 ^ t := by
    rw [hq, Int.natAbs_mul, Int.natAbs_ofNat,
      Nat.mul_div_cancel_left _ (pow_pos (by norm_num) _)]
  rw [hq, Int.mul_fdiv_cancel_left _ hp0, ← Int.natAbs_odd, hqabs, Nat.odd_iff]
  exact ho

/-! ### Inversion facts about the decoding chain -/

theorem mask_bound {b fm : Nat} (h : FormatDesc.mask b = some fm) : fm < 2 ^ 64 := by
  unfold FormatDesc.mask at h
  split at h
  · exact Option.noConfusion h
  · have := Option.some.inj h
    subst this
    rw [Nat.shiftRight_eq_div_pow]
    have h1 : (2 ^ 64 - 1) / 2 ^ (64 - b) ≤ 2 ^ 64 - 1 := Nat.div_le_self _ _
    omega

theorem shrU64_inv {x sh y : Nat} (h : shrU64 x sh = some y) : y = x >>> sh := by
  unfold shrU64 at h
  split at h
  · exact (Option.some.inj h).symm
  · exact Option.noConfusion h

theorem integer_bit_inv {d : FormatDesc} {ib : Nat} (h : d.integer_bit = some ib) :
    ib = 2 ^ d.frac_bits ∧ d.frac_bits < 64 := by
  unfold FormatDesc.integer_bit at h
  split at h
  · refine ⟨?_, by assumption⟩
    rw [← Option.some.inj h, Nat.one_shiftLeft]
  · exact Option.noConfusion h

theorem parseRaw_num_facts {d : FormatDesc} {s : Nat} {k : FloatKind} {n : Int}
    (h : parseRaw d s = some (k, n)) :
    ((∃ e, k = FloatKind.Regular e) → n ≠ 0 ∧ n.natAbs < 2 ^ 65) ∧
    ((k = FloatKind.Zero ∨ k = FloatKind.Infinity ∨ k = FloatKind.NaN) →
      ∃ s2, shrU64 s d.sign_shift = some s2 ∧
        n = if s2 &&& d.sign_mask ≠ 0 then -1 else 1) := by
  unfold parseRaw at h
  repeat' split at h
  all_goals try exact Option.noConfusion h
  -- leaf: Infinity, negative sign
  · rename_i o1 fm hfm o2 s0 hs0 o3 bm hbm o4 s1 hs1 o5 s2 hs2 o6 bias hbias o7 t1 ht1
      o8 t2 ht2 o9 e9 he9 c1 c2 csgn
    injection h with h2
    injection h2 with hk hn
    subst hk
    subst hn
    constructor
    · rintro ⟨e, he⟩
      exact FloatKind.noConfusion he
    · intro _
      exact ⟨s2, hs2, (if_pos csgn).symm⟩
  -- leaf: Infinity, positive sign
  · rename_i o1 fm hfm o2 s0 hs0 o3 bm hbm o4 s1 hs1 o5 s2 hs2 o6 bias hbias o7 t1 ht1
      o8 t2 ht2 o9 e9 he9 c1 c2 csgn
    injection h with h2
    injection h2 with hk hn
    subst hk
    subst hn
    constructor
    · rintro ⟨e, he⟩
      exact FloatKind.noConfusion he
    · intro _
      exact ⟨s2, hs2, (if_neg csgn).symm⟩
  -- leaf: NaN, negative sign
  · rename_i o1 fm hfm o2 s0 hs0 o3 bm hbm o4 s1 hs1 o5 s2 hs2 o6 bias hbias o7 t1 ht1
      o8 t2 ht2 o9 e9 he9 c1 c2 csgn
    injection h with h2
    injection h2 with hk hn
    subst hk
    subst hn
    constructor
    · rintro ⟨e, he⟩
      exact FloatKind.noConfusion he
    · intro _
      exact ⟨s2, hs2, (if_pos csgn).symm⟩
  -- leaf: NaN, positive sign
  · rename_i o1 fm hfm o2 s0 hs0 o3 bm hbm o4 s1 hs1 o5 s2 hs2 o6 bias hbias o7 t1 ht1
      o8 t2 ht2 o9 e9 he9 c1 c2 csgn
    injection h with h2
    injection h2 with hk hn
    subst hk
    subst hn
    constructor
    · rintro ⟨e, he⟩
      exact FloatKind.noConfusion he
    · intro _
      exact ⟨s2, hs2, (if_neg csgn).symm⟩
  -- leaf: Zero, negative sign
  · rename_i o1 fm hfm o2 s0 hs0 o3 bm hbm o4 s1 hs1 o5 s2 hs2 o6 bias hbias o7 t1 ht1
      o8 t2 ht2 o9 e9 he9 c1 c2 c3 csgn
    injection h with h2
    injection h2 with hk hn
    subst hk
    subst hn
    constructor
    · rintro ⟨e, he⟩
      exact FloatKind.noConfusion he
    · intro _
      exact ⟨s2, hs2, (if_pos csgn).symm⟩
  -- leaf: Zero, positive sign
  · rename_i o1 fm hfm o2 s0 hs0 o3 bm hbm o4 s1 hs1 o5 s2 hs2 o6 bias hbias o7 t1 ht1
      o8 t2 ht2 o9 e9 he9 c1 c2 c3 csgn
    injection h with h2
    injection h2 with hk hn
    subst hk
    subst hn
    constructor
    · rintro ⟨e, he⟩
      exact FloatKind.noConfusion he
    · intro _
      exact ⟨s2, hs2, (if_neg csgn).symm⟩
  -- leaf: subnormal Regular, negative sign
  · rename_i o1 fm hfm o2 s0 hs0 o3 bm hbm o4 s1 hs1 o5 s2 hs2 o6 bias hbias o7 t1 ht1
      o8 t2 ht2 o9 e9 he9 c1 c2 c3 o10 e1 he1 csgn
    injection h with h2
    injection h2 with hk hn
    subst hk
    subst hn
    constructor
    · intro _
      have hfmb : fm < 2 ^ 64 := mask_bound hfm
      have hle : s0 &&& fm ≤ fm := Nat.and_le_right
      constructor
      · simp only [neg_mul, one_mul, ne_eq, neg_eq_zero, Int.natCast_eq_zero]
        exact c3
      · rw [Int.natAbs_mul]
        simp only [Int.natAbs_neg, Int.natAbs_one, one_mul, Int.natAbs_ofNat]
        omega
    · intro hks
      rcases hks with hh | hh | hh <;> exact FloatKind.noConfusion hh
  -- leaf: subnormal Regular, positive sign
  · rename_i o1 fm hfm o2 s0 hs0 o3 bm hbm o4 s1 hs1 o5 s2 hs2 o6 bias hbias o7 t1 ht1
      o8 t2 ht2 o9 e9 he9 c1 c2 c3 o10 e1 he1 csgn
    injection h with h2
    injection h2 with hk hn
    subst hk
    subst hn
    constructor
    · intro _
      have hfmb : fm < 2 ^ 64 := mask_bound hfm
      have hle : s0 &&& fm ≤ fm := Nat.and_le_right
      constructor
      · simp only [one_mul, ne_eq, Int.natCast_eq_zero]
        exact c3
      · rw [Int.natAbs_mul]
        simp only [Int.natAbs_one, one_mul, Int.natAbs_ofNat]
        omega
    · intro hks
      rcases hks with hh | hh | hh <;> exact FloatKind.noConfusion hh
  -- leaf: normal Regular, negative sign
  · rename_i o1 fm hfm o2 s0 hs0 o3 bm hbm o4 s1 hs1 o5 s2 hs2 o6 bias hbias o7 t1 ht1
      o8 t2 ht2 o9 e9 he9 c1 c2 o10 ib hib csgn
    injection h with h2
    injection h2 with hk hn
    subst hk
    subst hn
    constructor
    · intro _
      obtain ⟨hibv, hib64⟩ := integer_bit_inv hib
      have hfmb : fm < 2 ^ 64 := mask_bound hfm
      have hle : s0 &&& fm ≤ fm := Nat.and_le_right
      have hbit : ((s0 &&& fm) ||| ib).testBit d.frac_bits = true := by
        rw [hibv, Nat.testBit_lor, Nat.testBit_two_pow_self, Bool.or_true]
      have hlor_ne : (s0 &&& fm) ||| ib ≠ 0 := by
        intro h0
        rw [h0, Nat.zero_testBit] at hbit
        exact Bool.noConfusion hbit
      have hib_lt : ib < 2 ^ 65 := by
        rw [hibv]
        exact Nat.pow_lt_pow_right (by norm_num) (by omega)
      have hlor_lt : (s0 &&& fm) ||| ib < 2 ^ 65 :=
        Nat.or_lt_two_pow (by omega) hib_lt
      constructor
      · simp only [neg_mul, one_mul, ne_eq, neg_eq_zero, Int.natCast_eq_zero]
        exact hlor_ne
      · rw [Int.natAbs_mul]
        simp only [Int.natAbs_neg, Int.natAbs_one, one_mul, Int.natAbs_ofNat]
        exact hlor_lt
    · intro hks
      rcases hks with hh | hh | hh <;> exact FloatKind.noConfusion hh
  -- leaf: normal Regular, positive sign
  · rename_i o1 fm hfm o2 s0 hs0 o3 bm hbm o4 s1 hs1 o5 s2 hs2 o6 bias hbias o7 t1 ht1
      o8 t2 ht2 o9 e9 he9 c1 c2 o10 ib hib csgn
    injection h with h2
    injection h2 with hk hn
    subst hk
    subst hn
    constructor
    · intro _
      obtain ⟨hibv, hib64⟩ := integer_bit_inv hib
      have hfmb : fm < 2 ^ 64 := mask_bound hfm
      have hle : s0 &&& fm ≤ fm := Nat.and_le_right
      have hbit : ((s0 &&& fm) ||| ib).testBit d.frac_bits = true := by
        rw [hibv, Nat.testBit_lor, Nat.testBit_two_pow_self, Bool.or_true]
      have hlor_ne : (s0 &&& fm) ||| ib ≠ 0 := by
        intro h0
        rw [h0, Nat.zero_testBit] at hbit
        exact Bool.noConfusion hbit
      have hib_lt : ib < 2 ^ 65 := by
        rw [hibv]
        exact Nat.pow_lt_pow_right (by norm_num) (by omega)
      have hlor_lt : (s0 &&& fm) ||| ib < 2 ^ 65 :=
        Nat.or_lt_two_pow (by omega) hib_lt
      constructor
      · simp only [one_mul, ne_eq, Int.natCast_eq_zero]
        exact hlor_ne
      · rw [Int.natAbs_mul]
        simp only [Int.natAbs_one, one_mul, Int.natAbs_ofNat]
        exact hlor_lt
    · intro hks
      rcases hks with hh | hh | hh <;> exact FloatKind.noConfusion hh

/-! ### The normalizing constructor -/

theorem natAbs_sign_mul (c : Prop) [Decidable c] (x : Nat) :
    ((if c then (-1 : Int) else 1) * (x : Int)).natAbs = x := by
  split_ifs <;> simp

theorem sign_mul_ne_zero (c : Prop) [Decidable c] {x : Nat} (hx : x ≠ 0) :
    (if c then (-1 : Int) else 1) * (x : Int) ≠ 0 := by
  split_ifs <;> simp [hx]

theorem new_regular {e num : Int} (hnum : num ≠ 0) (htz : ctz num.natAbs < 2 ^ 31)
    (hlo : -(2 ^ 31) ≤ e + (ctz num.natAbs : Int))
    (hhi : e + (ctz num.natAbs : Int) < 2 ^ 31) :
    ArbFloat.new (.Regular e) num =
      some ⟨.Regular (e + (ctz num.natAbs : Int)),
        Int.fdiv num ((2 ^ ctz num.natAbs : Nat) : Int)⟩ := by
  have hw : wrap32 (ctz num.natAbs) = ((ctz num.natAbs : Nat) : Int) := wrap32_eq htz
  simp only [ArbFloat.new, if_neg hnum, hw, chk32_eq hlo hhi,
    if_neg (not_lt.mpr (Int.natCast_nonneg (ctz num.natAbs))), Int.toNat_natCast]

theorem new_regular_inv {e num : Int} {af : ArbFloat}
    (h : ArbFloat.new (.Regular e) num = some af) (hlt : num.natAbs < 2 ^ 65) :
    num ≠ 0 ∧ af.num = Int.fdiv num ((2 ^ ctz num.natAbs : Nat) : Int) ∧
      ∃ e2, af.kind = .Regular e2 := by
  by_cases hnum : num = 0
  · simp only [ArbFloat.new, if_pos hnum] at h
    exact Option.noConfusion h
  · have htzlt : ctz num.natAbs < 65 := ctz_lt (Int.natAbs_ne_zero.mpr hnum) hlt
    have hw : wrap32 (ctz num.natAbs) = ((ctz num.natAbs : Nat) : Int) :=
      wrap32_eq (by omega)
    simp only [ArbFloat.new, if_neg hnum, hw] at h
    repeat' split at h
    all_goals try exact Option.noConfusion h
    rename_i o1 e2 hchk hneg
    cases Option.some.inj h
    refine ⟨hnum, ?_, ⟨e2, rfl⟩⟩
    simp only [Int.toNat_natCast]

theorem new_pass_zero (num : Int) : ArbFloat.new .Zero num = some ⟨.Zero, num⟩ := rfl

theorem new_pass_infinity (num : Int) :
    ArbFloat.new .Infinity num = some ⟨.Infinity, num⟩ := rfl

theorem new_pass_nan (num : Int) : ArbFloat.new .NaN num = some ⟨.NaN, num⟩ := rfl

theorem lor_two_pow_ne_zero (x n : Nat) : x ||| 2 ^ n ≠ 0 := by
  intro h0
  have hbit : (x ||| 2 ^ n).testBit n = true := by
    rw [Nat.testBit_lor, Nat.testBit_two_pow_self, Bool.or_true]
  rw [h0, Nat.zero_testBit] at hbit
  exact Bool.noConfusion hbit

/-- C3 (amended): for every descriptor with `1 ≤ F`, `1 ≤ E ≤ 31` and
`F+E+1 ≤ 64`, and every 64-bit raw pattern, the decode operation cannot
fail: no masking, bias computation or trailing-zero `unwrap` panics, and the
result's kind is exactly one of Regular, Zero, Infinity, NaN. -/
theorem parse_total (d : FormatDesc) (s : Nat) (hF : 1 ≤ d.frac_bits)
    (hE : 1 ≤ d.exp_bits) (hE31 : d.exp_bits ≤ 31)
    (hW : d.frac_bits + d.exp_bits + 1 ≤ 64) (hs : s < 2 ^ 64) :
    ∃ af, parse d s = some af ∧
      ((∃ e, af.kind = .Regular e) ∨ af.kind = .Zero ∨ af.kind = .Infinity ∨
        af.kind = .NaN) := by
  rw [parse, parseRaw_valid d s hF hE hE31 hW]
  simp only [specClassify]
  have hfr_le : s &&& (2 ^ d.frac_bits - 1) ≤ 2 ^ d.frac_bits - 1 := Nat.and_le_right
  have hfr_pos : 0 < 2 ^ d.frac_bits := pow_pos (by norm_num) _
  have hfr_lt : s &&& (2 ^ d.frac_bits - 1) < 2 ^ d.frac_bits := by omega
  have hBpos : (0 : Int) < 2 ^ (d.exp_bits - 1) := pow_pos (by norm_num) _
  have hBle : (2 : Int) ^ (d.exp_bits - 1) ≤ 2 ^ 30 := by
    have h := Nat.pow_le_pow_right (by norm_num : 0 < 2) (show d.exp_bits - 1 ≤ 30 by omega)
    exact_mod_cast h
  have hFle62 : (d.frac_bits : Int) ≤ 62 := by
    exact_mod_cast (show d.frac_bits ≤ 62 by omega)
  have hF0 : (0 : Int) ≤ (d.frac_bits : Int) := Int.natCast_nonneg _
  have hbe_le : (s >>> d.frac_bits) &&& (2 ^ d.exp_bits - 1) ≤ 2 ^ d.exp_bits - 1 :=
    Nat.and_le_right
  have hE2 : (2 : Nat) ^ d.exp_bits ≤ 2 ^ 31 := Nat.pow_le_pow_right (by norm_num) hE31
  have hbe_lt : (s >>> d.frac_bits) &&& (2 ^ d.exp_bits - 1) < 2 ^ 31 := by omega
  have hbeI0 : (0 : Int) ≤ (((s >>> d.frac_bits) &&& (2 ^ d.exp_bits - 1) : Nat) : Int) :=
    Int.natCast_nonneg _
  have hbeIlt : (((s >>> d.frac_bits) &&& (2 ^ d.exp_bits - 1) : Nat) : Int) < 2 ^ 31 := by
    exact_mod_cast hbe_lt
  by_cases hbe1 : (s >>> d.frac_bits) &&& (2 ^ d.exp_bits - 1) = 2 ^ d.exp_bits - 1
  · by_cases hfr : s &&& (2 ^ d.frac_bits - 1) = 0
    · rw [if_pos hbe1, if_pos hfr, Option.some_bind]
      exact ⟨⟨.Infinity, _⟩, new_pass_infinity _, Or.inr (Or.inr (Or.inl rfl))⟩
    · rw [if_pos hbe1, if_neg hfr, Option.some_bind]
      exact ⟨⟨.NaN, _⟩, new_pass_nan _, Or.inr (Or.inr (Or.inr rfl))⟩
  · by_cases hbe0 : (s >>> d.frac_bits) &&& (2 ^ d.exp_bits - 1) = 0
    · by_cases hfr : s &&& (2 ^ d.frac_bits - 1) = 0
      · rw [if_neg hbe1, if_pos hbe0, if_pos hfr, Option.some_bind]
        exact ⟨⟨.Zero, _⟩, new_pass_zero _, Or.inr (Or.inl rfl)⟩
      · rw [if_neg hbe1, if_pos hbe0, if_neg hfr, Option.some_bind]
        have habs : (specSignFactor d s * ((s &&& (2 ^ d.frac_bits - 1) : Nat) : Int)).natAbs
            = s &&& (2 ^ d.frac_bits - 1) := by
          unfold specSignFactor
          exact natAbs_sign_mul _ _
        have hnum_ne : specSignFactor d s * ((s &&& (2 ^ d.frac_bits - 1) : Nat) : Int) ≠ 0 := by
          unfold specSignFactor
          exact sign_mul_ne_zero _ hfr
        have htzF : ctz (specSignFactor d s *
            ((s &&& (2 ^ d.frac_bits - 1) : Nat) : Int)).natAbs < d.frac_bits := by
          rw [habs]
          exact ctz_lt hfr hfr_lt
        have htzI : ((ctz (specSignFactor d s *
            ((s &&& (2 ^ d.frac_bits - 1) : Nat) : Int)).natAbs : Nat) : Int) <
            (d.frac_bits : Int) := by
          exact_mod_cast htzF
        have htz0 : (0 : Int) ≤ ((ctz (specSignFactor d s *
            ((s &&& (2 ^ d.frac_bits - 1) : Nat) : Int)).natAbs : Nat) : Int) :=
          Int.natCast_nonneg _
        have hexp_eq : specUnbiasedExp d s =
            -((2 : Int) ^ (d.exp_bits - 1) - 1 + ((d.frac_bits : Int) + 1) - 1) := by
          unfold specUnbiasedExp
          rw [hbe0]
          push_cast
          ring
        rw [new_regular hnum_ne (by omega) (by rw [hexp_eq]; omega) (by rw [hexp_eq]; omega)]
        exact ⟨_, rfl, Or.inl ⟨_, rfl⟩⟩
    · rw [if_neg hbe1, if_neg hbe0, Option.some_bind]
      have hlor_ne : (s &&& (2 ^ d.frac_bits - 1)) ||| 2 ^ d.frac_bits ≠ 0 :=
        lor_two_pow_ne_zero _ _
      have hlor_lt : (s &&& (2 ^ d.frac_bits - 1)) ||| 2 ^ d.frac_bits <
          2 ^ (d.frac_bits + 1) :=
        Nat.or_lt_two_pow
          (hfr_lt.trans (Nat.pow_lt_pow_right (by norm_num) (by omega)))
          (Nat.pow_lt_pow_right (by norm_num) (by omega))
      have habs : (specSignFactor d s *
          (((s &&& (2 ^ d.frac_bits - 1)) ||| 2 ^ d.frac_bits : Nat) : Int)).natAbs
          = (s &&& (2 ^ d.frac_bits - 1)) ||| 2 ^ d.frac_bits := by
        unfold specSignFactor
        exact natAbs_sign_mul _ _
      have hnum_ne : specSignFactor d s *
          (((s &&& (2 ^ d.frac_bits - 1)) ||| 2 ^ d.frac_bits : Nat) : Int) ≠ 0 := by
        unfold specSignFactor
        exact sign_mul_ne_zero _ hlor_ne
      have htzF : ctz (specSignFactor d s *
          (((s &&& (2 ^ d.frac_bits - 1)) ||| 2 ^ d.frac_bits : Nat) : Int)).natAbs <
          d.frac_bits + 1 := by
        rw [habs]
        exact ctz_lt hlor_ne hlor_lt
      have htzI : ((ctz (specSignFactor d s *
          (((s &&& (2 ^ d.frac_bits - 1)) ||| 2 ^ d.frac_bits : Nat) : Int)).natAbs : Nat) : Int)
          < (d.frac_bits : Int) + 1 := by
        exact_mod_cast htzF
      have htz0 : (0 : Int) ≤ ((ctz (specSignFactor d s *
          (((s &&& (2 ^ d.frac_bits - 1)) ||| 2 ^ d.frac_bits : Nat) : Int)).natAbs : Nat) : Int) :=
        Int.natCast_nonneg _
      have hexp_eq : specUnbiasedExp d s =
          (((s >>> d.frac_bits) &&& (2 ^ d.exp_bits - 1) : Nat) : Int)
            - ((2 : Int) ^ (d.exp_bits - 1) - 1 + ((d.frac_bits : Int) + 1) - 1) := rfl
      rw [new_regular hnum_ne (by omega) (by rw [hexp_eq]; omega) (by rw [hexp_eq]; omega)]
      exact ⟨_, rfl, Or.inl ⟨_, rfl⟩⟩

/-! ### Claim theorems -/

/-- C1 (amended): for every format descriptor with `1 ≤ F`, `1 ≤ E ≤ 31` and
`F+E+1 ≤ 64`, and every raw pattern whose bits above position `F+E+1` are
zero, the decode operation classifies by (biased exponent, fraction) exactly
as the spec's rule states (`specClassify`): all-ones exponent gives Infinity
or NaN by fraction; zero exponent gives Zero or a subnormal Regular with
significand magnitude `fraction` and exponent `(be - (bias + precision - 1)) + 1`;
otherwise a normal Regular with magnitude `fraction ||| integer_bit` and
exponent `be - (bias + precision - 1)`. -/
theorem decode_classification (d : FormatDesc) (s : Nat) (hF : 1 ≤ d.frac_bits)
    (hE : 1 ≤ d.exp_bits) (hE31 : d.exp_bits ≤ 31)
    (hW : d.frac_bits + d.exp_bits + 1 ≤ 64)
    (hs : s < 2 ^ (d.frac_bits + d.exp_bits + 1)) :
    parseRaw d s = specClassify d s :=
  parseRaw_valid d s hF hE hE31 hW

/-- C1 counterexample: the claim quantifies over every format descriptor, but
descriptors with a zero fraction field (`mask(0)` shifts by 64), a zero
exponent field (`exp_bits - 1` underflows), an exponent field of 32 or more
bits (the bias computation overflows `i32`), or total width above 64 (the
sign shift overflows) make the decoder fail instead of classifying; e.g.
raw 0 should classify as Zero in each of these formats. -/
theorem decode_classification_cex :
    parseRaw ⟨0, 8⟩ 0 = none ∧ parseRaw ⟨3, 0⟩ 0 = none ∧
    parseRaw ⟨3, 32⟩ 0 = none ∧ parseRaw ⟨60, 10⟩ 0 = none := by
  decide

/-- C1 witness: the BINARY32 pattern of 1.0 classifies as a normal Regular
with pre-normalization significand `2^23` and exponent `-23`. -/
theorem decode_classification_witness :
    parseRaw FormatDesc.BINARY32 0x3F800000 = some (FloatKind.Regular (-23), 8388608) :=
  (decode_classification FormatDesc.BINARY32 0x3F800000 (by decide) (by decide)
    (by decide) (by decide) (by decide)).trans (by decide)

/-- C2: every `Regular` value produced by the decode operation has a zero or
odd significand — the normalizing constructor has folded every factor of two
into the exponent (in fact the significand is always odd, zero being
unreachable for `Regular`). -/
theorem decode_regular_odd (d : FormatDesc) (s : Nat) (af : ArbFloat) (e : Int)
    (h : parse d s = some af) (hk : af.kind = .Regular e) :
    af.num = 0 ∨ Odd af.num := by
  rw [parse, Option.bind_eq_some] at h
  obtain ⟨⟨k0, n0⟩, hraw, hnew⟩ := h
  replace hnew : ArbFloat.new k0 n0 = some af := hnew
  cases k0 with
  | Regular e0 =>
    obtain ⟨hn0, hlt⟩ := (parseRaw_num_facts hraw).1 ⟨e0, rfl⟩
    obtain ⟨-, hnum_eq, -⟩ := new_regular_inv hnew hlt
    right
    rw [hnum_eq]
    exact fdiv_ctz_odd hn0
  | Zero =>
    rw [new_pass_zero] at hnew
    cases Option.some.inj hnew
    exact absurd hk (by simp)
  | Infinity =>
    rw [new_pass_infinity] at hnew
    cases Option.some.inj hnew
    exact absurd hk (by simp)
  | NaN =>
    rw [new_pass_nan] at hnew
    cases Option.some.inj hnew
    exact absurd hk (by simp)

/-- C2 witness: decoding 1.0 in BINARY32 gives a Regular value with odd
significand 1. -/
theorem decode_regular_odd_witness : (1 : Int) = 0 ∨ Odd (1 : Int) :=
  decode_regular_odd FormatDesc.BINARY32 0x3F800000 ⟨.Regular 0, 1⟩ 0 (by decide) rfl

/-- C3 counterexample: the claim as stated only assumes `F+E+1 ≤ 64`, but
decoding panics (models as `none`) for a zero-width fraction field
(`mask(0)`), a zero-width exponent field (`exp_bits - 1` underflow), and
exponent fields of 32 or 33 bits (the `i32` bias computation overflows),
all of which satisfy `F+E+1 ≤ 64`. -/
theorem parse_total_cex :
    parse ⟨0, 11⟩ 0 = none ∧ parse ⟨5, 0⟩ 0 = none ∧
    parse ⟨5, 32⟩ 0 = none ∧ parse ⟨5, 33⟩ 0 = none := by
  decide

/-- C3 witness: decoding 1.0 in BINARY32 succeeds and yields one of the four
kinds. -/
theorem parse_total_witness :
    ∃ af, parse FormatDesc.BINARY32 0x3F800000 = some af ∧
      ((∃ e, af.kind = .Regular e) ∨ af.kind = .Zero ∨ af.kind = .Infinity ∨
        af.kind = .NaN) :=
  parse_total FormatDesc.BINARY32 0x3F800000 (by decide) (by decide) (by decide)
    (by decide) (by decide)

/-- C4: the five literal decodes from `print_examples`: +1.0, -0.0, +inf and
a quiet NaN in BINARY32, and +1.0 in BINARY64, produce exactly the stated
results (sign recorded in the ±1 significand sentinel for Zero/Infinity). -/
theorem decode_literals :
    parse FormatDesc.BINARY32 0x3F800000 = some ⟨.Regular 0, 1⟩ ∧
    parse FormatDesc.BINARY32 0x80000000 = some ⟨.Zero, -1⟩ ∧
    parse FormatDesc.BINARY32 0x7F800000 = some ⟨.Infinity, 1⟩ ∧
    parse FormatDesc.BINARY32 0x7FC00000 = some ⟨.NaN, 1⟩ ∧
    parse FormatDesc.BINARY64 0x3FF0000000000000 = some ⟨.Regular 0, 1⟩ := by
  decide

/-- C6: in the toy `BINARY3` format (F=1, E=1), each of the eight raw values
decodes as follows; exactly the all-zero-biased-exponent patterns 0,1,4,5
yield Zero or (subnormal) Regular, and exactly the all-ones patterns 2,3,6,7
yield Infinity or NaN. -/
theorem decode_binary3_enum :
    parse BINARY3 0 = some ⟨.Zero, 1⟩ ∧
    parse BINARY3 1 = some ⟨.Regular 0, 1⟩ ∧
    parse BINARY3 2 = some ⟨.Infinity, 1⟩ ∧
    parse BINARY3 3 = some ⟨.NaN, 1⟩ ∧
    parse BINARY3 4 = some ⟨.Zero, -1⟩ ∧
    parse BINARY3 5 = some ⟨.Regular 0, -1⟩ ∧
    parse BINARY3 6 = some ⟨.Infinity, -1⟩ ∧
    parse BINARY3 7 = some ⟨.NaN, -1⟩ := by
  decide

/-- C7 (amended): `mask(n) = (1 << n) - 1 = 2^n - 1` holds for `1 ≤ n < 64`
(not for `n = 0`, where the 64-bit shift overflows). -/
theorem mask_valid (n : Nat) (h1 : 1 ≤ n) (h2 : n < 64) :
    FormatDesc.mask n = some (2 ^ n - 1) :=
  mask_eq h1 (by omega)

/-- C7 counterexample: `mask(0)` is `MAX >> 64`, a shift overflow, not
`(1 << 0) - 1 = 0`. -/
theorem mask_valid_cex : FormatDesc.mask 0 = none := by decide

/-- C7 witness: `mask(23) = 2^23 - 1`. -/
theorem mask_valid_witness : FormatDesc.mask 23 = some (2 ^ 23 - 1) :=
  mask_valid 23 (by decide) (by decide)

/-- C8 (amended): for `1 ≤ E ≤ 31` and `F+E+1 ≤ 64` the derived descriptor
quantities are the pure functions of F and E the spec states:
`precision = F + 1`, `exp_bias = 2^(E-1) - 1`, `integer_bit = 2^F`, the sign
bit sits at single-bit position `F+E`.  (For `E ≥ 32` the bias computation
overflows `i32` instead of producing `2^(E-1) - 1`.) -/
theorem fmt_derived (d : FormatDesc) (hE : 1 ≤ d.exp_bits) (hE31 : d.exp_bits ≤ 31)
    (hW : d.frac_bits + d.exp_bits + 1 ≤ 64) :
    d.precision = (d.frac_bits : Int) + 1 ∧
    d.exp_bias = some ((2 : Int) ^ (d.exp_bits - 1) - 1) ∧
    d.integer_bit = some (2 ^ d.frac_bits) ∧
    d.sign_shift = d.frac_bits + d.exp_bits ∧
    d.sign_mask = 1 := by
  refine ⟨rfl, exp_bias_eq2 hE hE31, integer_bit_eq (by omega), ?_, rfl⟩
  rw [FormatDesc.sign_shift, FormatDesc.biased_exp_shift, FormatDesc.frac_shift,
    Nat.zero_add]

/-- C8 counterexample: `F=1, E=32` satisfies `F+E+1 ≤ 64` and `E ≥ 1`, yet
`exp_bias` overflows (`(1 << 31) - 1` in `i32`) instead of returning
`2^31 - 1`. -/
theorem fmt_derived_cex : FormatDesc.exp_bias ⟨1, 32⟩ = none := by decide

/-- C8 witness: the BINARY32 derived quantities. -/
theorem fmt_derived_witness :
    FormatDesc.BINARY32.precision = (FormatDesc.BINARY32.frac_bits : Int) + 1 ∧
    FormatDesc.BINARY32.exp_bias =
      some ((2 : Int) ^ (FormatDesc.BINARY32.exp_bits - 1) - 1) ∧
    FormatDesc.BINARY32.integer_bit = some (2 ^ FormatDesc.BINARY32.frac_bits) ∧
    FormatDesc.BINARY32.sign_shift =
      FormatDesc.BINARY32.frac_bits + FormatDesc.BINARY32.exp_bits ∧
    FormatDesc.BINARY32.sign_mask = 1 :=
  fmt_derived FormatDesc.BINARY32 (by decide) (by decide) (by decide)

/-- C9: the normalizing constructor passes Zero, Infinity and NaN through
with kind and significand unchanged; and within the decoder a `Regular` kind
is only ever constructed with a nonzero significand, so the
trailing-zero-count `unwrap` never sees zero. -/
theorem new_frame :
    (∀ m : Int, ArbFloat.new .Zero m = some ⟨.Zero, m⟩) ∧
    (∀ m : Int, ArbFloat.new .Infinity m = some ⟨.Infinity, m⟩) ∧
    (∀ m : Int, ArbFloat.new .NaN m = some ⟨.NaN, m⟩) ∧
    (∀ (d : FormatDesc) (s : Nat) (e : Int) (n : Int),
      parseRaw d s = some (.Regular e, n) → n ≠ 0) :=
  ⟨new_pass_zero, new_pass_infinity, new_pass_nan,
    fun _ _ e _ h => ((parseRaw_num_facts h).1 ⟨e, rfl⟩).1⟩

/-- C9 witness: pass-through at significand 7, and the Regular significand
produced for BINARY32 1.0 (namely 2^23) is nonzero. -/
theorem new_frame_witness :
    ArbFloat.new .Zero 7 = some ⟨.Zero, 7⟩ ∧ (8388608 : Int) ≠ 0 :=
  ⟨new_frame.1 7,
    new_frame.2.2.2 FormatDesc.BINARY32 0x3F800000 (-23) 8388608 (by decide)⟩

/-- C10: whenever decoding classifies a raw input as Zero, Infinity or NaN,
the returned significand is the ±1 sign sentinel — `-1` exactly when the
sign bit is set, `+1` otherwise, never 0 — so signed zeros and infinities
keep their sign through the sentinel. -/
theorem special_sign_sentinel (d : FormatDesc) (s : Nat) (af : ArbFloat)
    (h : parse d s = some af)
    (hk : af.kind = .Zero ∨ af.kind = .Infinity ∨ af.kind = .NaN) :
    af.num = specSignFactor d s ∧ af.num ≠ 0 := by
  rw [parse, Option.bind_eq_some] at h
  obtain ⟨⟨k0, n0⟩, hraw, hnew⟩ := h
  replace hnew : ArbFloat.new k0 n0 = some af := hnew
  have hsign : (k0 = FloatKind.Zero ∨ k0 = FloatKind.Infinity ∨ k0 = FloatKind.NaN) →
      af = ⟨k0, n0⟩ → af.num = specSignFactor d s ∧ af.num ≠ 0 := by
    intro hk0 haf
    obtain ⟨s2, hs2, hval⟩ := (parseRaw_num_facts hraw).2 hk0
    have hs2v : s2 = s >>> d.sign_shift := shrU64_inv hs2
    subst haf
    constructor
    · show n0 = _
      rw [hval, hs2v, FormatDesc.sign_shift, FormatDesc.biased_exp_shift,
        FormatDesc.frac_shift, Nat.zero_add]
      rfl
    · show n0 ≠ 0
      rw [hval]
      split_ifs <;> norm_num
  cases k0 with
  | Regular e0 =>
    obtain ⟨hn0, hlt⟩ := (parseRaw_num_facts hraw).1 ⟨e0, rfl⟩
    obtain ⟨-, -, e2, hk2⟩ := new_regular_inv hnew hlt
    rcases hk with hh | hh | hh <;> rw [hh] at hk2 <;> exact FloatKind.noConfusion hk2
  | Zero =>
    rw [new_pass_zero] at hnew
    exact hsign (Or.inl rfl) (Option.some.inj hnew).symm
  | Infinity =>
    rw [new_pass_infinity] at hnew
    exact hsign (Or.inr (Or.inl rfl)) (Option.some.inj hnew).symm
  | NaN =>
    rw [new_pass_nan] at hnew
    exact hsign (Or.inr (Or.inr rfl)) (Option.some.inj hnew).symm

/-- C10 witness: BINARY32 `-0.0` decodes to Zero with significand exactly
`-1` (the sign factor for a set sign bit), which is nonzero. -/
theorem special_sign_sentinel_witness :
    (⟨FloatKind.Zero, -1⟩ : ArbFloat).num = specSignFactor FormatDesc.BINARY32 0x80000000 ∧
    (⟨FloatKind.Zero, -1⟩ : ArbFloat).num ≠ 0 :=
  special_sign_sentinel FormatDesc.BINARY32 0x80000000 ⟨.Zero, -1⟩ (by decide)
    (Or.inl rfl)

/-- C5: for the sampled BINARY32 constants 1.0, 2.0, 0.5, 1.5, the rational
`significand * 2^exponent` reconstructed from the decode result equals the
value the bit pattern encodes, `(-1)^sign * (1 + fraction/2^F) * 2^(be - bias)`. -/
theorem decode_reconstruct_samples :
    (parse FormatDesc.BINARY32 0x3F800000).bind reconstruct =
      some ((-1 : Rat) ^ (0 : Nat) * (1 + 0 / 2 ^ 23) * (2 : Rat) ^ ((127 : Int) - 127)) ∧
    (parse FormatDesc.BINARY32 0x40000000).bind reconstruct =
      some ((-1 : Rat) ^ (0 : Nat) * (1 + 0 / 2 ^ 23) * (2 : Rat) ^ ((128 : Int) - 127)) ∧
    (parse FormatDesc.BINARY32 0x3F000000).bind reconstruct =
      some ((-1 : Rat) ^ (0 : Nat) * (1 + 0 / 2 ^ 23) * (2 : Rat) ^ ((126 : Int) - 127)) ∧
    (parse FormatDesc.BINARY32 0x3FC00000).bind reconstruct =
      some ((-1 : Rat) ^ (0 : Nat) * (1 + (4194304 : Rat) / 2 ^ 23) *
        (2 : Rat) ^ ((127 : Int) - 127)) := by
  have h1 : parse FormatDesc.BINARY32 0x3F800000 = some ⟨.Regular 0, 1⟩ := by decide
  have h2 : parse FormatDesc.BINARY32 0x40000000 = some ⟨.Regular 1, 1⟩ := by decide
  have h3 : parse FormatDesc.BINARY32 0x3F000000 = some ⟨.Regular (-1), 1⟩ := by decide
  have h4 : parse FormatDesc.BINARY32 0x3FC00000 = some ⟨.Regular (-1), 3⟩ := by decide
  refine ⟨?_, ?_, ?_, ?_⟩
  · rw [h1, Option.some_bind]
    simp only [reconstruct, Option.some.injEq]
    norm_num
  · rw [h2, Option.some_bind]
    simp only [reconstruct, Option.some.injEq]
    norm_num
  · rw [h3, Option.some_bind]
    simp only [reconstruct, Option.some.injEq]
    norm_num
  · rw [h4, Option.some_bind]
    simp only [reconstruct, Option.some.injEq]
    norm_num
